import Mathlib

/-!
Verification of the NapCat ACP bridge core (`src/ncat`).

The development shallowly embeds the behaviourally relevant parts of the
Python source: the per-chat agent-manager session orchestration
(`agent_manager.py`), the streamed-update accumulator, the permission
broker (`permission.py`), the message dispatcher routing (`dispatcher.py`)
and the prompt builder (`prompt_builder.py`).  Python dictionaries are
modelled as insertion-ordered association lists, strings as Lean strings
(or code-point lists where the source slices by index), and `async`
control flow as explicit outcome parameters: the value a given `await`
finishes with is an argument of the embedded function, and each embedded
operation returns its result together with the successor state.
-/

namespace Ncat

/-- Ordered content part for AI replies (`ncat/models.py`, `ContentPart`).
`type` is `"text"` or `"image"`; unused fields keep their `""` defaults. -/
structure ContentPart where
  type : String
  text : String := ""
  image_base64 : String := ""
  image_mime : String := ""
deriving DecidableEq, Repr

/-- Insertion-ordered dictionary (Python `dict`) as an association list. -/
abbrev Dict (α : Type) := List (String × α)

/-- `d.get(k)` / `d[k]`: the value bound to `k`, if any. -/
def dget {α : Type} : Dict α → String → Option α
  | [], _ => none
  | (k', v) :: rest, k => if k' = k then some v else dget rest k

/-- `d[k] = v`: replace the value bound to `k` in place (keeping its
position, as Python dicts do), or append a fresh binding at the end. -/
def dset {α : Type} : Dict α → String → α → Dict α
  | [], k, v => [(k, v)]
  | (k', v') :: rest, k, v =>
      if k' = k then (k, v) :: rest else (k', v') :: dset rest k v

/-- `d.pop(k, default)`, state side: the dictionary without the binding
for `k` (a no-op when `k` is absent). -/
def dpop {α : Type} : Dict α → String → Dict α
  | [], _ => []
  | (k', v') :: rest, k => if k' = k then dpop rest k else (k', v') :: dpop rest k

/-- Per-chat connection state (`ncat/agent_connection.py`,
`AgentConnection`): the accumulator dictionary `session_id → parts` and
the active-prompt flag.  The subprocess and ACP client handles carried by
the dataclass do not affect the verified session logic. -/
structure AgentConnection where
  accumulators : Dict (List ContentPart)
  active_prompt : Bool
deriving DecidableEq, Repr

/-- Result of `AgentManager.get_or_create_session`: the session id, the
updated connection, and whether a `session/new` request was issued. -/
structure SessionLookup where
  session_id : String
  conn : AgentConnection
  created_new : Bool
deriving DecidableEq, Repr

/-- `AgentManager.get_or_create_session` (`agent_manager.py` lines 185-199)
composed with the session-registration effect of `_create_session` (lines
257-264): if the connection has any accumulator entry, the first
accumulator key is returned as the existing session id and no request is
sent; otherwise `session/new` is issued and the agent's reply `fresh_sid`
is recorded with an empty accumulator.  The cwd and MCP payload sent on
the wire do not affect the session bookkeeping. -/
def getOrCreateSession (conn : AgentConnection) (fresh_sid : String) : SessionLookup :=
  match conn.accumulators with
  | (sid, _) :: _ => ⟨sid, conn, false⟩
  | [] => ⟨fresh_sid, { conn with accumulators := [(fresh_sid, [])] }, true⟩

/-- `AgentManager.accumulate_part` (`agent_manager.py` lines 287-295) on a
connection that exists: append the part only when the connection has an
accumulator entry for `session_id`. -/
def accumulatePartOn (c : AgentConnection) (session_id : String)
    (part : ContentPart) : AgentConnection :=
  match dget c.accumulators session_id with
  | none => c
  | some parts =>
      { c with accumulators := dset c.accumulators session_id (parts ++ [part]) }

/-- `AgentManager.accumulate_part` including its
`self._connections.get(chat_id)` guard: a missing connection makes the
call a no-op. -/
def accumulatePart (conn : Option AgentConnection) (session_id : String)
    (part : ContentPart) : Option AgentConnection :=
  match conn with
  | none => none
  | some c => some (accumulatePartOn c session_id part)

/-- One streamed `session/update` notification as dispatched to
`NcatAcpClient.session_update`. -/
inductive SessionUpdate where
  | messageText (s : String)
  | messageImage (data mime : String)
  | toolCall
  | plan
deriving DecidableEq, Repr

/-- Modelled from the spec: the revision of `NcatAcpClient.session_update`
that matches `AgentManager.accumulate_part` is missing from `src` — the
copy in `src/ncat/acp_client.py` is a superseded text-only revision whose
constructor (no `chat_id`) and `accumulate_text` call fit neither
`agent_manager.py` line 101 nor the tests.  Spec section 4.7: a
`session/update` with an `AgentMessageChunk` carrying a text block appends
`Text{chunk}` to the session accumulator; an image block appends
`Image{base64,mime}`; tool-call and plan updates are logged only. -/
def sessionUpdateOn (c : AgentConnection) (session_id : String)
    (u : SessionUpdate) : AgentConnection :=
  match u with
  | .messageText s => accumulatePartOn c session_id { type := "text", text := s }
  | .messageImage data mime =>
      accumulatePartOn c session_id
        { type := "image", image_base64 := data, image_mime := mime }
  | .toolCall => c
  | .plan => c

/-- How the awaited `session/prompt` request finishes. -/
inductive PromptOutcome where
  | success
  | cancelled
  | error
deriving DecidableEq, Repr

/-- What `AgentManager.send_prompt` produces on each outcome: the returned
parts, a re-raised `CancelledError`, or a raised
`AgentErrorWithPartialContent` carrying the parts streamed so far. -/
inductive PromptResult where
  | ok (parts : List ContentPart)
  | cancelledRaised
  | errorWithStreamed (streamed : List ContentPart)
deriving DecidableEq, Repr

/-- `AgentManager.send_prompt` (`agent_manager.py` lines 304-361) for one
chat's connection: get or create the session, reset its accumulator and
set `active_prompt`, apply the `session/update` notifications delivered
while the prompt is awaited (each targeting some session id), then follow
the outcome branch — on success pop and return the accumulated parts; on
cancellation pop the accumulator and re-raise; on any other error pop the
accumulator and raise `AgentErrorWithPartialContent` with it.  The
`finally` clause resets `active_prompt` on every branch.  The upstream
`ensure_connection` / `is_running` guards raise before any of this state
is touched and are not part of the embedding. -/
def sendPrompt (conn : AgentConnection) (fresh_sid : String)
    (updates : List (String × SessionUpdate)) (outcome : PromptOutcome) :
    PromptResult × AgentConnection :=
  let lk := getOrCreateSession conn fresh_sid
  let sid := lk.session_id
  let c1 : AgentConnection :=
    { lk.conn with accumulators := dset lk.conn.accumulators sid [], active_prompt := true }
  let c2 : AgentConnection :=
    updates.foldl (fun c su => sessionUpdateOn c su.1 su.2) c1
  match outcome with
  | .success =>
      (PromptResult.ok ((dget c2.accumulators sid).getD []),
       { c2 with accumulators := dpop c2.accumulators sid, active_prompt := false })
  | .cancelled =>
      (PromptResult.cancelledRaised,
       { c2 with accumulators := dpop c2.accumulators sid, active_prompt := false })
  | .error =>
      (PromptResult.errorWithStreamed ((dget c2.accumulators sid).getD []),
       { c2 with accumulators := dpop c2.accumulators sid, active_prompt := false })

/-! ## Permission broker (`ncat/permission.py`) -/

/-- Dictionary keyed by an optional tool kind (`tool_kind_key` is
`ToolCallUpdate.kind` or `None`; `None` is a valid key). -/
abbrev KindDict (α : Type) := List (Option String × α)

/-- `d.get(k)` for the kind-keyed dictionary. -/
def kget {α : Type} : KindDict α → Option String → Option α
  | [], _ => none
  | (k', v) :: rest, k => if k' = k then some v else kget rest k

/-- `d[k] = v` for the kind-keyed dictionary. -/
def kset {α : Type} : KindDict α → Option String → α → KindDict α
  | [], k, v => [(k, v)]
  | (k', v') :: rest, k, v =>
      if k' = k then (k, v) :: rest else (k', v') :: kset rest k v

/-- A permission option offered by the agent (`acp.schema.PermissionOption`:
`option_id`, `name`, `kind`). -/
structure PermissionOption where
  option_id : String
  name : String
  kind : String
deriving DecidableEq, Repr

/-- The tool-call description attached to a permission request
(`acp.schema.ToolCallUpdate`, the fields `permission.py` reads).
`raw_input` is modelled as the already-serialized display string: the
source passes `raw_input` through unchanged when it is a `str` and
`json.dumps` of the object otherwise, and no claim depends on the
serializer itself. -/
structure ToolCallUpdate where
  kind : Option String
  title : Option String
  raw_input : Option String
deriving DecidableEq, Repr

/-- The state of an `asyncio.Future` as observed by the broker code:
unset, resolved with a selected option, or cancelled. -/
inductive FutureState where
  | unset
  | resolvedTo (o : PermissionOption)
  | cancelledFut
deriving DecidableEq, Repr

/-- `permission.PendingPermission`: the future, the offered options, and
the originating event (kept opaque as a string tag). -/
structure PendingPermission where
  future : FutureState
  options : List PermissionOption
  event : String
deriving DecidableEq, Repr

/-- `PermissionBroker` mutable state: the "always" cache
`session_id → (tool_kind → option)` and the pending request per chat. -/
structure BrokerState where
  always : Dict (KindDict PermissionOption)
  pending : Dict PendingPermission
deriving DecidableEq, Repr

/-- `PermissionBroker` configuration: timeout in seconds (`0` = wait
forever) and the display bound for `raw_input` (`0` = unlimited).  The
source stores the timeout as a float and renders it with `:.0f`; claims
never depend on fractional seconds, so it is carried as a natural. -/
structure BrokerConfig where
  timeout : Nat
  raw_input_max_len : Nat
deriving DecidableEq, Repr

/-- `_PERMISSION_KIND_HINTS` (`permission.py` lines 252-257). -/
def permissionKindHints : Dict String :=
  [("allow_once", "允许一次"),
   ("allow_always", "本会话始终允许同类操作"),
   ("reject_once", "拒绝一次"),
   ("reject_always", "本会话始终拒绝同类操作")]

/-- `PermissionBroker._format_permission_message` (`permission.py` lines
209-248): header with kind label and title, optional truncated raw input,
timeout hint, then the 1-based numbered option list. -/
def formatPermissionMessage (cfg : BrokerConfig) (tool_call : ToolCallUpdate)
    (options : List PermissionOption) : String :=
  let kind_label :=
    match tool_call.kind with
    | some k => if k ≠ "" then "[" ++ k ++ "] " else ""
    | none => ""
  let title := match tool_call.title with
    | some t => if t ≠ "" then t else "(unknown operation)"
    | none => "(unknown operation)"
  let headerLines := ["Agent 请求执行操作：\n" ++ kind_label ++ title]
  let rawLines :=
    match tool_call.raw_input with
    | none => []
    | some raw_str =>
        let shown :=
          if cfg.raw_input_max_len > 0 ∧ raw_str.length > cfg.raw_input_max_len then
            raw_str.take cfg.raw_input_max_len ++ "...(已截断)"
          else raw_str
        ["参数:\n" ++ shown]
  let hintLines :=
    if cfg.timeout > 0 then
      ["\n请回复编号选择（" ++ toString cfg.timeout ++ "秒后自动取消）："]
    else
      ["\n请回复编号选择："]
  let optionLines := options.enum.map fun iopt =>
    let kind_hint := (dget permissionKindHints iopt.2.kind).getD ""
    let hint_suffix := if kind_hint ≠ "" then " (" ++ kind_hint ++ ")" else ""
    toString (iopt.1 + 1) ++ ". " ++ iopt.2.name ++ hint_suffix
  String.intercalate "\n" (headerLines ++ rawLines ++ hintLines ++ optionLines)

/-- The timeout notice posted by `handle` when the wait times out. -/
def timeoutNotice (cfg : BrokerConfig) : String :=
  "权限请求已超时（" ++ toString cfg.timeout ++ "秒），已自动取消。"

/-- How the awaited user-reply future finishes inside
`PermissionBroker.handle`: resolved by `try_resolve` with an option,
`asyncio.wait_for` timeout, cancellation (e.g. `/stop`), or any other
unexpected exception escaping the `await`. -/
inductive HandleResolution where
  | userSelects (o : PermissionOption)
  | timedOut
  | cancelledAwait
  | unexpectedError
deriving DecidableEq, Repr

/-- The `RequestPermissionResponse` content (or a raised exception) a
`handle` call ends with. -/
inductive PermissionOutcome where
  | selected (option_id : String)
  | deniedCancelled
  | raisedError
deriving DecidableEq, Repr

/-- Everything observable from one `PermissionBroker.handle` call: the
response (or raise), the texts posted to the chat in order, and the
successor broker state. -/
structure HandleResult where
  outcome : PermissionOutcome
  messages : List String
  state : BrokerState
deriving DecidableEq, Repr

/-- `PermissionBroker.handle` (`permission.py` lines 73-151).  The cache
is consulted first; on a hit the cached option is returned with no
message and no pending registration.  Otherwise the formatted request is
posted, a pending entry with a fresh future is registered, and the future
is awaited; `res` is how that await finishes.  Every await branch removes
the pending entry (the `except` clauses and the `finally` clause), and a
user-selected "always" option is recorded in the cache before the
selected outcome is returned. -/
def handle (cfg : BrokerConfig) (st : BrokerState) (session_id chat_id event : String)
    (tool_call : ToolCallUpdate) (options : List PermissionOption)
    (res : HandleResolution) : HandleResult :=
  let tool_kind := tool_call.kind
  match kget ((dget st.always session_id).getD []) tool_kind with
  | some cached => ⟨.selected cached.option_id, [], st⟩
  | none =>
    let msg := formatPermissionMessage cfg tool_call options
    let registered : BrokerState :=
      { st with pending := dset st.pending chat_id ⟨.unset, options, event⟩ }
    let popped : BrokerState :=
      { registered with pending := dpop registered.pending chat_id }
    match res with
    | .timedOut => ⟨.deniedCancelled, [msg, timeoutNotice cfg], popped⟩
    | .cancelledAwait => ⟨.deniedCancelled, [msg], popped⟩
    | .unexpectedError => ⟨.raisedError, [msg], popped⟩
    | .userSelects selected =>
        let cachedState : BrokerState :=
          if selected.kind = "allow_always" ∨ selected.kind = "reject_always" then
            { popped with
              always := dset popped.always session_id
                (kset ((dget popped.always session_id).getD []) tool_kind selected) }
          else popped
        ⟨.selected selected.option_id, [msg], cachedState⟩

/-- `PermissionBroker.has_pending` (`permission.py` lines 153-155). -/
def hasPending (st : BrokerState) (chat_id : String) : Bool :=
  (dget st.pending chat_id).isSome

/-- Whitespace stripped by Python `str.strip()` (ASCII subset). -/
def isPyWs (c : Char) : Bool :=
  c = ' ' ∨ c = '\t' ∨ c = '\n' ∨ c = '\r' ∨ c = '\x0b' ∨ c = '\x0c'

/-- Python `str.strip()` on code points (ASCII whitespace model). -/
def pyStripL (s : List Char) : List Char :=
  ((s.dropWhile isPyWs).reverse.dropWhile isPyWs).reverse

/-- Python `str.strip()` at the `String` level. -/
def pyStrip (s : String) : String := String.mk (pyStripL s.data)

/-- Digit tail of a Python integer literal: digits with single
underscores allowed between digits. -/
def parseDigitTail (acc : Nat) : List Char → Option Nat
  | [] => some acc
  | '_' :: c :: rest =>
      if c.isDigit then parseDigitTail (acc * 10 + (c.toNat - 48)) rest else none
  | '_' :: [] => none
  | c :: rest =>
      if c.isDigit then parseDigitTail (acc * 10 + (c.toNat - 48)) rest else none

/-- Unsigned part of Python `int(str)`: a nonempty digit sequence. -/
def parsePyNat : List Char → Option Nat
  | c :: rest => if c.isDigit then parseDigitTail (c.toNat - 48) rest else none
  | [] => none

/-- Model of Python `int(str)` on an already-stripped string: optional
sign followed by ASCII digits (with Python's underscore grouping).
Non-ASCII digit forms accepted by CPython are outside the model. -/
def parsePyInt (s : String) : Option Int :=
  match s.data with
  | '+' :: rest => (parsePyNat rest).map Int.ofNat
  | '-' :: rest => (parsePyNat rest).map fun n => -(n : Int)
  | cs => (parsePyNat cs).map Int.ofNat

/-- `PermissionBroker.try_resolve` (`permission.py` lines 157-182):
returns whether the reply was accepted, together with the successor
state.  The reply is accepted precisely when a pending entry exists and
the stripped text parses as a 1-based index into its options; the future
is resolved only if it is not already done. -/
def tryResolve (st : BrokerState) (chat_id text : String) : Bool × BrokerState :=
  match dget st.pending chat_id with
  | none => (false, st)
  | some pending =>
    match parsePyInt (pyStrip text) with
    | none => (false, st)
    | some index =>
      if h : index < 1 ∨ index > (pending.options.length : Int) then (false, st)
      else
        let selected := pending.options.get ⟨(index - 1).toNat, by omega⟩
        let resolved : PendingPermission := { pending with future := .resolvedTo selected }
        if pending.future = FutureState.unset then
          (true, { st with pending := dset st.pending chat_id resolved })
        else (true, st)

/-- `PermissionBroker.cancel_pending` (`permission.py` lines 184-192):
pop the pending entry if present and cancel its future (the cancellation
is observed by `handle` as `HandleResolution.cancelledAwait`); with no
pending entry nothing happens. -/
def cancelPending (st : BrokerState) (chat_id : String) : BrokerState :=
  match dget st.pending chat_id with
  | none => st
  | some _ => { st with pending := dpop st.pending chat_id }

/-- `PermissionBroker.clear_session` (`permission.py` lines 194-205):
drop the "always" cache entry for the session. -/
def clearSession (st : BrokerState) (session_id : String) : BrokerState :=
  { st with always := dpop st.always session_id }

/-! ## Manager-side session close (`agent_manager.py`) and the broker -/

/-- One chat's slice of the whole bridge: the chat's connection entry in
`AgentManager._connections` (if any) and the permission broker state. -/
structure BridgeState where
  conn : Option AgentConnection
  broker : BrokerState
deriving DecidableEq, Repr

/-- `AgentManager.close_session` (`agent_manager.py` lines 266-276): when
the chat has a connection, clear its accumulator dictionary.  The agent
subprocess is not touched, and — unlike the superseded
`acp_client.AgentManager.close_session` — this `AgentManager` holds no
reference to the permission broker, so the broker state is untouched. -/
def managerCloseSession (s : BridgeState) : BridgeState :=
  match s.conn with
  | none => s
  | some c => { s with conn := some { c with accumulators := [] } }

/-! ## Message dispatcher (`ncat/dispatcher.py`) -/

/-- Raw image reference from a message segment (`ncat/models.py`,
`ImageAttachment`). -/
structure ImageAttachment where
  url : String
deriving DecidableEq, Repr

/-- Parsed inbound message (`ncat/models.py`, `ParsedMessage`). -/
structure ParsedMessage where
  chat_id : String
  text : String
  is_at_bot : Bool
  sender_name : String
  sender_id : Int
  group_name : Option String
  message_type : String
  images : List ImageAttachment
deriving DecidableEq, Repr

/-- Python `str.startswith` via code points. -/
def strStartsWith (s p : String) : Bool := p.data.isPrefixOf s.data

/-- Python slice `s[n:]` via code points. -/
def strDrop (s : String) (n : Nat) : String := String.mk (s.data.drop n)

/-- Python `s.lstrip(" ")`: remove leading space characters only. -/
def lstripSpaces (s : String) : String := String.mk (s.data.dropWhile (· = ' '))

/-- Python `s[0] == " "` guarded by nonemptiness. -/
def strHeadIsSpace (s : String) : Bool :=
  match s.data with
  | [] => false
  | c :: _ => c = ' '

/-- Replies the dispatcher itself posts (`dispatcher.py`).  `helpText`
stands for the `/send` usage help (`HELP_TEXT` imported from
`ncat.command`); `busy` stands for `_MSG_BUSY`.  Claims depend only on
which replies are sent, not on the rendered strings. -/
inductive ReplyMsg where
  | helpText
  | busy
deriving DecidableEq, Repr

/-- Observable routing outcome of one `MessageDispatcher.handle_message`
call: replies posted by the dispatcher itself, whether the command
registry consumed the message, whether the `/bg` handler ran, and the
prompt text handed to `PromptRunner.process` (i.e. `parsed.text` at
dispatch time), if any. -/
structure DispatchResult where
  replies : List ReplyMsg
  command_handled : Bool
  bg_handled : Bool
  prompt : Option String
deriving DecidableEq, Repr

/-- `MessageDispatcher.handle_message` (`dispatcher.py` lines 86-162),
with the command registry abstracted as the matcher `cm` (whether
`CommandExecutor.try_handle` consumes the given text) and the
`PromptRunner` busy flag as `busy`.  Steps, in source order: drop group
messages without `@bot`; `/send` prefix stripping (empty body shows the
usage help, otherwise the body replaces `parsed.text` and command
matching is bypassed); command registry; `/bg` commands; busy rejection;
prompt dispatch. -/
def handleMessage (cm : String → Bool) (parsed : ParsedMessage) (busy : Bool) :
    DispatchResult :=
  if parsed.message_type = "group" ∧ parsed.is_at_bot = false then
    ⟨[], false, false, none⟩
  else
    let step3 : String × Bool × Bool :=
      if strStartsWith parsed.text "/send" then
        let rest := strDrop parsed.text 5
        if rest = "" ∨ strHeadIsSpace rest then
          let body := lstripSpaces rest
          if body = "" then (parsed.text, false, true)
          else (body, true, false)
        else (parsed.text, false, false)
      else (parsed.text, false, false)
    let text := step3.1
    let send_forwarded := step3.2.1
    let help_return := step3.2.2
    if help_return then ⟨[.helpText], false, false, none⟩
    else if ¬send_forwarded ∧ cm text then ⟨[], true, false, none⟩
    else if ¬send_forwarded ∧ strStartsWith text "/bg" then ⟨[], false, true, none⟩
    else if busy then ⟨[.busy], false, false, none⟩
    else ⟨[], false, false, some text⟩

/-! ## Prompt builder (`ncat/prompt_builder.py`) -/

/-- The positional image placeholder inserted by the converter and
rewritten by the prompt builder (`marker = "[图片]"`). -/
def imageMarker : List Char := "[图片]".data

/-- Python `text.find(marker)` restricted to a nonempty `marker`: index
of the first occurrence, if any. -/
def findMarker (marker : List Char) : List Char → Option Nat
  | [] => none
  | c :: rest =>
      if marker.isPrefixOf (c :: rest) then some 0
      else (findMarker marker rest).map (· + 1)

/-- Python `text.find(marker, start)` (nonempty `marker`), with `none`
for the sentinel `-1`. -/
def pyFind (text marker : List Char) (start : Nat) : Option Nat :=
  (findMarker marker (text.drop start)).map (· + start)

/-- The `while used < len(replacements)` loop of
`_replace_image_placeholders` (`prompt_builder.py` lines 48-59),
recursing on the replacements still to use: returns the rendered text
from `start` on, together with the unused replacements (nonempty exactly
when the loop broke with placeholders exhausted). -/
def replaceLoop (marker text : List Char) (start : Nat) :
    List (List Char) → List Char × List (List Char)
  | [] => (text.drop start, [])
  | r :: rs =>
    match pyFind text marker start with
    | none => (text.drop start, r :: rs)
    | some idx =>
        let tail := replaceLoop marker text (idx + marker.length) rs
        ((text.drop start).take (idx - start) ++ r ++ tail.1, tail.2)

/-- `_replace_image_placeholders` (`prompt_builder.py` lines 34-74):
run the replacement loop, then append any surplus replacements as extra
lines separated from a non-newline-terminated result by one newline.
The placeholder-count warning is log-only. -/
def replaceImagePlaceholders (text : List Char) (replacements : List (List Char)) :
    List Char :=
  if replacements = [] then text
  else
    let lp := replaceLoop imageMarker text 0 replacements
    if lp.2 = [] then lp.1
    else
      let extra := List.intercalate ['\n'] lp.2
      let sep := if lp.1 ≠ [] ∧ lp.1.getLast? ≠ some '\n' then ['\n'] else []
      lp.1 ++ sep ++ extra

/-- The per-image replacement loop of `build_prompt_blocks`
(`prompt_builder.py` lines 84-92), consuming the download list in step
with the attachments (`downloaded_images[i] if i < len(...) else None`):
keep the marker when the agent supports images and the download
succeeded, else embed the stripped URL, else keep the marker. -/
def buildReplacements (agent_supports_image : Bool) :
    List ImageAttachment → List (Option (String × String)) → List (List Char)
  | [], _ => []
  | att :: atts, dls =>
      let downloaded := dls.head?.join
      let url := pyStripL att.url.data
      let r :=
        if agent_supports_image ∧ downloaded.isSome then imageMarker
        else if url ≠ [] then "[图片 url=".data ++ url ++ "]".data
        else imageMarker
      r :: buildReplacements agent_supports_image atts (dls.drop 1)

/-- The context header of `build_prompt_blocks` (`prompt_builder.py`
lines 97-104).  `parsed.chat_id.split(":")[1]` is total for the
`"kind:id"`-shaped chat ids the converter produces; a missing second
component is rendered as the empty string.  A `None` group name renders
as `"None"`, matching the Python f-string. -/
def buildHeader (parsed : ParsedMessage) : List Char :=
  if parsed.message_type = "private" then
    ("[Private chat, user " ++ parsed.sender_name ++ "("
      ++ toString parsed.sender_id ++ ")]").data
  else
    let group_id := ((parsed.chat_id.splitOn ":").get? 1).getD ""
    let group_name := match parsed.group_name with
      | some g => g
      | none => "None"
    ("[Group chat " ++ group_name ++ "(" ++ group_id ++ "), user "
      ++ parsed.sender_name ++ "(" ++ toString parsed.sender_id ++ ")]").data

/-- An ACP prompt content block (`acp.text_block` / `acp.image_block`).
Text payloads are code-point lists to match the slicing model. -/
inductive PromptBlock where
  | textB (s : List Char)
  | imageB (data mime : String)
deriving DecidableEq, Repr

/-- `build_prompt_blocks` (`prompt_builder.py` lines 77-114): a leading
text block `header ++ "\n" ++ body` with the image placeholders
rewritten, followed — only when the agent supports images — by one image
block per successfully downloaded image, in order. -/
def buildPromptBlocks (parsed : ParsedMessage)
    (downloaded_images : List (Option (String × String)))
    (agent_supports_image : Bool) : List PromptBlock :=
  let replacements := buildReplacements agent_supports_image parsed.images downloaded_images
  let body_text := replaceImagePlaceholders parsed.text.data replacements
  let header := buildHeader parsed
  let blocks := [PromptBlock.textB (header ++ ['\n'] ++ body_text)]
  if agent_supports_image then
    blocks ++ (downloaded_images.filterMap id).map fun dm => PromptBlock.imageB dm.1 dm.2
  else blocks

/-- Spec-side text shape: `interleave [s0, …, sn] [r1, …, rn]` is
`s0 ++ r1 ++ s1 ++ … ++ rn ++ sn`, the decomposition of a parsed text
into marker-free segments around its `n` positional placeholders. -/
def interleave : List (List Char) → List (List Char) → List Char
  | [], _ => []
  | s :: _, [] => s
  | s :: ss, r :: rs => s ++ r ++ interleave ss rs

/-- Spec-side replacement rule for one positional placeholder, as the
claim states it: keep the plain marker exactly when the agent supports
images and that image downloaded successfully; otherwise embed the URL,
or keep the bare marker when the stripped URL is empty. -/
def claimReplacement (agent_supports_image : Bool) (att : ImageAttachment)
    (dl : Option (String × String)) : List Char :=
  if agent_supports_image ∧ dl.isSome then imageMarker
  else if pyStripL att.url.data ≠ [] then
    "[图片 url=".data ++ pyStripL att.url.data ++ "]".data
  else imageMarker

/-- A segment admits no `marker` occurrence starting strictly before its
end, even with the marker itself appended: the well-formedness condition
under which the find loop hits each placeholder exactly. -/
def noEarlyOcc (marker seg : List Char) : Prop :=
  ∀ i < seg.length, marker.isPrefixOf ((seg ++ marker).drop i) = false

instance (marker seg : List Char) : Decidable (noEarlyOcc marker seg) := by
  unfold noEarlyOcc; infer_instance

/-- Start-index-free restatement of `replaceLoop`, operating on the text
suffix directly (proof device for the loop's correctness). -/
def tailFn (marker : List Char) : List Char → List (List Char) → List Char × List (List Char)
  | t, [] => (t, [])
  | t, r :: rs =>
    match findMarker marker t with
    | none => (t, r :: rs)
    | some j =>
        let tail := tailFn marker (t.drop (j + marker.length)) rs
        (t.take j ++ r ++ tail.1, tail.2)

/-- The reply part a single `session/update` contributes to the
accumulator, if any (spec section 4.7: text and image message chunks
contribute; tool-call and plan updates do not). -/
def updatePart : SessionUpdate → Option ContentPart
  | .messageText s => some { type := "text", text := s }
  | .messageImage data mime =>
      some { type := "image", image_base64 := data, image_mime := mime }
  | .toolCall => none
  | .plan => none

/-- Concatenation of the text payloads of the text parts, in order. -/
def textConcat (parts : List ContentPart) : List Char :=
  (parts.filterMap fun p => if p.type = "text" then some p.text.data else none).flatten

/-- Concatenation of the text chunks of an update sequence, in order. -/
def chunkTextConcat (cs : List SessionUpdate) : List Char :=
  (cs.filterMap fun u =>
    match u with
    | .messageText s => some s.data
    | _ => none).flatten

/-! ## Dictionary lemmas -/

theorem dget_dset_self {α : Type} (d : Dict α) (k : String) (v : α) :
    dget (dset d k v) k = some v := by
  induction d with
  | nil => simp [dset, dget]
  | cons kv rest ih =>
      obtain ⟨k', v'⟩ := kv
      by_cases hk : k' = k
      · simp [dset, dget, hk]
      · simp [dset, dget, hk, ih]

theorem dget_dset_ne {α : Type} (d : Dict α) {k k' : String} (h : k' ≠ k) (v : α) :
    dget (dset d k v) k' = dget d k' := by
  induction d with
  | nil => simp [dset, dget, Ne.symm h]
  | cons kv rest ih =>
      obtain ⟨k₀, v₀⟩ := kv
      by_cases hk : k₀ = k
      · have hne : k ≠ k' := fun hkk => h hkk.symm
        have hne' : k₀ ≠ k' := hk ▸ hne
        simp [dset, dget, hk, Ne.symm h, hne, hne']
      · by_cases hk' : k₀ = k'
        · subst hk'
          simp [dset, dget, hk]
        · simp [dset, dget, hk, hk', ih]

theorem dget_dpop_self {α : Type} (d : Dict α) (k : String) :
    dget (dpop d k) k = none := by
  induction d with
  | nil => rfl
  | cons kv rest ih =>
      obtain ⟨k', v'⟩ := kv
      by_cases hk : k' = k
      · simpa [dpop, hk] using ih
      · simpa [dpop, dget, hk] using ih

theorem dget_dpop_ne {α : Type} (d : Dict α) {k k' : String} (h : k' ≠ k) :
    dget (dpop d k) k' = dget d k' := by
  induction d with
  | nil => rfl
  | cons kv rest ih =>
      obtain ⟨k₀, v₀⟩ := kv
      by_cases hk : k₀ = k
      · have hne' : ¬k₀ = k' := fun hkk => h (hkk.symm.trans hk)
        simp [dpop, dget, hk, hne', Ne.symm h, ih]
      · by_cases hk' : k₀ = k'
        · subst hk'
          simp [dpop, dget, hk]
        · simp [dpop, dget, hk, hk', ih]

theorem dget_none_iff {α : Type} (d : Dict α) (k : String) :
    dget d k = none ↔ k ∉ d.map Prod.fst := by
  induction d with
  | nil => simp [dget]
  | cons kv rest ih =>
      obtain ⟨k', v'⟩ := kv
      by_cases hk : k' = k
      · simp [dget, hk]
      · simp [dget, hk, ih, Ne.symm hk]

theorem dset_keys_of_mem {α : Type} (d : Dict α) (k : String) (v : α)
    (h : (dget d k).isSome) : (dset d k v).map Prod.fst = d.map Prod.fst := by
  induction d with
  | nil => simp [dget] at h
  | cons kv rest ih =>
      obtain ⟨k', v'⟩ := kv
      by_cases hk : k' = k
      · simp [dset, hk]
      · simp only [dget, hk, if_false] at h
        simp [dset, hk, ih h]

theorem dset_keys_of_absent {α : Type} (d : Dict α) (k : String) (v : α)
    (h : dget d k = none) : (dset d k v).map Prod.fst = d.map Prod.fst ++ [k] := by
  induction d with
  | nil => simp [dset]
  | cons kv rest ih =>
      obtain ⟨k', v'⟩ := kv
      by_cases hk : k' = k
      · simp [dget, hk] at h
      · simp only [dget, hk, if_false] at h
        simp [dset, hk, ih h]

theorem dset_keys_nodup {α : Type} (d : Dict α) (k : String) (v : α)
    (h : (d.map Prod.fst).Nodup) : ((dset d k v).map Prod.fst).Nodup := by
  cases hd : dget d k with
  | some w =>
      rw [dset_keys_of_mem d k v (by simp [hd])]
      exact h
  | none =>
      rw [dset_keys_of_absent d k v hd]
      have hk : k ∉ d.map Prod.fst := (dget_none_iff d k).mp hd
      rw [List.nodup_append]
      refine ⟨h, List.nodup_singleton k, ?_⟩
      intro a ha hb
      have hak : a = k := by simpa using hb
      exact hk (hak ▸ ha)

theorem dpop_sublist {α : Type} (d : Dict α) (k : String) : List.Sublist (dpop d k) d := by
  induction d with
  | nil => simp [dpop]
  | cons kv rest ih =>
      obtain ⟨k', v'⟩ := kv
      by_cases hk : k' = k
      · simp only [dpop, hk, if_true]
        exact List.Sublist.cons _ ih
      · simp only [dpop, hk, if_false]
        exact List.Sublist.cons₂ _ ih

theorem dpop_keys_nodup {α : Type} (d : Dict α) (k : String)
    (h : (d.map Prod.fst).Nodup) : ((dpop d k).map Prod.fst).Nodup := by
  exact (((dpop_sublist d k).map Prod.fst)).nodup h

theorem kget_kset_self {α : Type} (d : KindDict α) (k : Option String) (v : α) :
    kget (kset d k v) k = some v := by
  induction d with
  | nil => simp [kset, kget]
  | cons kv rest ih =>
      obtain ⟨k', v'⟩ := kv
      by_cases hk : k' = k
      · simp [kset, kget, hk]
      · simp [kset, kget, hk, ih]

/-! ## Claim C1 -/

/-- C1: evaluation at the failing input.  Starting from a fresh
connection for one chat, a successful `send_prompt` pops the session's
accumulator entry (the very marker `get_or_create_session` uses for
session existence), so the next `send_prompt`'s `get_or_create_session`
issues a second `session/new` and returns the agent's fresh id
`"sess-2"` instead of reusing `"sess-1"` — the claimed session reuse
fails on the code. -/
theorem c1_second_prompt_creates_new_session :
    (getOrCreateSession
        (sendPrompt ⟨[], false⟩ "sess-1"
          [("sess-1", SessionUpdate.messageText "hi")] PromptOutcome.success).2
        "sess-2").created_new = true ∧
    (getOrCreateSession
        (sendPrompt ⟨[], false⟩ "sess-1"
          [("sess-1", SessionUpdate.messageText "hi")] PromptOutcome.success).2
        "sess-2").session_id = "sess-2" ∧
    (getOrCreateSession (⟨[], false⟩ : AgentConnection) "sess-1").session_id = "sess-1" ∧
    "sess-2" ≠ "sess-1" := by
  refine ⟨rfl, rfl, rfl, ?_⟩
  decide

/-! ## Claim C4 -/

/-- C4: evaluation at the failing input.  A chat holds a live session
`"sess-1"` and the broker caches an always-decision for it.  After
`AgentManager.close_session` the session mapping is forgotten and the
connection record is kept, but the broker's always-cache entry for
`"sess-1"` is still present — the code never calls
`PermissionBroker.clear_session` — whereas `clearSession` would have
emptied it as the claim requires. -/
theorem c4_close_session_leaves_always_cache :
    (managerCloseSession
        ⟨some ⟨[("sess-1", [])], false⟩,
         ⟨[("sess-1", [(some "execute", ⟨"o2", "Allow always", "allow_always"⟩)])],
          []⟩⟩).broker.always
      = [("sess-1", [(some "execute", ⟨"o2", "Allow always", "allow_always"⟩)])] ∧
    dget (managerCloseSession
        ⟨some ⟨[("sess-1", [])], false⟩,
         ⟨[("sess-1", [(some "execute", ⟨"o2", "Allow always", "allow_always"⟩)])],
          []⟩⟩).broker.always "sess-1" ≠ none ∧
    (clearSession
        ⟨[("sess-1", [(some "execute", ⟨"o2", "Allow always", "allow_always"⟩)])], []⟩
        "sess-1").always = [] ∧
    (managerCloseSession
        ⟨some ⟨[("sess-1", [])], false⟩,
         ⟨[("sess-1", [(some "execute", ⟨"o2", "Allow always", "allow_always"⟩)])],
          []⟩⟩).conn = some ⟨[], false⟩ := by
  refine ⟨rfl, ?_, ?_, rfl⟩
  · intro h
    simp [managerCloseSession, dget] at h
  · simp [clearSession, dpop]

/-! ## Claim C9 -/

/-- C9: a group message whose parse has `atBot = false` is dropped
silently by `handle_message`: no reply is posted, the command registry
and the `/bg` handler are not consulted, the busy check does not fire,
and no prompt is dispatched — for every command matcher and busy state. -/
theorem c9_group_without_at_is_dropped (cm : String → Bool)
    (parsed : ParsedMessage) (busy : Bool)
    (hg : parsed.message_type = "group") (hat : parsed.is_at_bot = false) :
    handleMessage cm parsed busy = ⟨[], false, false, none⟩ := by
  unfold handleMessage
  rw [if_pos ⟨hg, hat⟩]

/-- C9 witness: the drop at a concrete group message. -/
theorem c9_group_without_at_is_dropped_witness :
    handleMessage (fun _ => true)
      ⟨"group:42", "hello", false, "Alice", 111, some "G", "group", []⟩ true
      = ⟨[], false, false, none⟩ :=
  c9_group_without_at_is_dropped (fun _ => true)
    ⟨"group:42", "hello", false, "Alice", 111, some "G", "group", []⟩ true rfl rfl

/-! ## Claim C8 -/

/-- C8: `/send` bypass.  For a message passing the group filter whose
text is `"/send " ++ body` with a nonempty body not starting with a
space, and a non-busy chat, the dispatcher hands exactly `body` to the
`PromptRunner` — for every command matcher `cm`, so even a `body`
beginning with `/new` reaches the agent verbatim and no local command or
`/bg` handler runs and no reply is posted.  And `"/send"` with an empty
body posts the usage help and dispatches no prompt. -/
theorem c8_send_bypasses_commands (cm : String → Bool) (parsed : ParsedMessage)
    (body : String) (htext : parsed.text = "/send " ++ body)
    (hne : body ≠ "") (hsp : strHeadIsSpace body = false)
    (hdrop : ¬(parsed.message_type = "group" ∧ parsed.is_at_bot = false)) :
    handleMessage cm parsed false = ⟨[], false, false, some body⟩ ∧
    (∀ parsed2 : ParsedMessage, parsed2.text = "/send" →
      ¬(parsed2.message_type = "group" ∧ parsed2.is_at_bot = false) →
      handleMessage cm parsed2 false = ⟨[ReplyMsg.helpText], false, false, none⟩) := by
  constructor
  · have hlit : "/send ".data = ['/', 's', 'e', 'n', 'd', ' '] := rfl
    have hdata : parsed.text.data = '/' :: 's' :: 'e' :: 'n' :: 'd' :: ' ' :: body.data := by
      rw [htext, String.data_append, hlit]
      rfl
    have hstart : strStartsWith parsed.text "/send" = true := by
      rw [strStartsWith, hdata]
      rfl
    have hrest : strDrop parsed.text 5 = String.mk (' ' :: body.data) := by
      rw [strDrop, hdata]
      rfl
    have hheadsp : strHeadIsSpace (String.mk (' ' :: body.data)) = true := by
      rw [strHeadIsSpace]
      simp
    have hstrip : lstripSpaces (String.mk (' ' :: body.data)) = body := by
      rw [lstripSpaces]
      have hdw : (' ' :: body.data).dropWhile (· = ' ') = body.data.dropWhile (· = ' ') := by
        simp [List.dropWhile]
      rw [hdw]
      cases hb : body.data with
      | nil =>
          exact absurd (String.ext hb) hne
      | cons c t =>
          have hc : ¬(c = ' ') := by
            rw [strHeadIsSpace, hb] at hsp
            simpa using hsp
          rw [List.dropWhile_cons_of_neg (by simpa using hc), ← hb]
    have hbne : body = "" → False := hne
    unfold handleMessage
    rw [if_neg hdrop]
    simp only [hstart, if_true, hrest, hheadsp, hstrip]
    simp [hne]
  · intro parsed2 htext2 hdrop2
    have hdata2 : parsed2.text.data = '/' :: 's' :: 'e' :: 'n' :: 'd' :: [] := by
      rw [htext2]
    have hstart2 : strStartsWith parsed2.text "/send" = true := by
      rw [strStartsWith, hdata2]
      rfl
    have hrest2 : strDrop parsed2.text 5 = "" := by
      rw [strDrop, hdata2]
      rfl
    unfold handleMessage
    rw [if_neg hdrop2]
    simp [hstart2, hrest2, lstripSpaces]

/-- C8 witness: `/send /new hello` at a non-busy private chat whose
command matcher would match both the raw text and the body: the body
still reaches the prompt verbatim; and a bare `/send` shows the help. -/
theorem c8_send_bypasses_commands_witness :
    handleMessage (fun t => t = "/new hello" ∨ t = "/send /new hello")
        ⟨"private:111", "/send /new hello", false, "Alice", 111, none, "private", []⟩
        false
      = ⟨[], false, false, some "/new hello"⟩ ∧
    handleMessage (fun t => t = "/new hello" ∨ t = "/send /new hello")
        ⟨"private:111", "/send", false, "Alice", 111, none, "private", []⟩
        false
      = ⟨[ReplyMsg.helpText], false, false, none⟩ := by
  have h := c8_send_bypasses_commands
    (fun t => t = "/new hello" ∨ t = "/send /new hello")
    ⟨"private:111", "/send /new hello", false, "Alice", 111, none, "private", []⟩
    "/new hello" rfl (by decide) rfl (by simp)
  exact ⟨h.1, h.2
    ⟨"private:111", "/send", false, "Alice", 111, none, "private", []⟩ rfl (by simp)⟩

/-! ## Claim C6 -/

/-- C6: `try_resolve` accepts precisely when a pending request exists and
the stripped text parses as a 1-based integer within the option range; it
returns `False` and leaves the state untouched otherwise; on acceptance
with an unresolved future the pending future is resolved with
`options[n-1]`; and replying `"2"` to options
`[o1 (allow_once), o2 (allow_always)]` resolves the future with `o2`. -/
theorem c6_try_resolve_exact (st : BrokerState) (chat_id text : String) :
    ((tryResolve st chat_id text).1 = true ↔
      ∃ p, dget st.pending chat_id = some p ∧
        ∃ n : Int, parsePyInt (pyStrip text) = some n ∧
          1 ≤ n ∧ n ≤ (p.options.length : Int)) ∧
    ((tryResolve st chat_id text).1 = false → (tryResolve st chat_id text).2 = st) ∧
    (∀ p n, dget st.pending chat_id = some p →
      parsePyInt (pyStrip text) = some n →
      1 ≤ n → n ≤ (p.options.length : Int) →
      p.future = FutureState.unset →
      ∃ sel, p.options.get? (n - 1).toNat = some sel ∧
        dget (tryResolve st chat_id text).2.pending chat_id
          = some ⟨FutureState.resolvedTo sel, p.options, p.event⟩) ∧
    (tryResolve
        ⟨[], [("private:111",
          ⟨FutureState.unset,
           [⟨"o1", "Allow once", "allow_once"⟩, ⟨"o2", "Allow always", "allow_always"⟩],
           "ev"⟩)]⟩
        "private:111" "2").2.pending
      = [("private:111",
          ⟨FutureState.resolvedTo ⟨"o2", "Allow always", "allow_always"⟩,
           [⟨"o1", "Allow once", "allow_once"⟩, ⟨"o2", "Allow always", "allow_always"⟩],
           "ev"⟩)] := by
  refine ⟨?_, ?_, ?_, by decide⟩
  · constructor
    · intro h
      unfold tryResolve at h
      split at h
      · exact absurd h (by simp)
      · rename_i p hp
        split at h
        · exact absurd h (by simp)
        · rename_i n hn
          split at h
          · exact absurd h (by simp)
          · rename_i hb
            push_neg at hb
            exact ⟨p, hp, n, hn, hb.1, hb.2⟩
    · rintro ⟨p, hp, n, hn, h1, h2⟩
      have hb : ¬(n < 1 ∨ n > (p.options.length : Int)) := by omega
      simp only [tryResolve, hp, hn]
      rw [dif_neg hb]
      by_cases hf : p.future = FutureState.unset
      · rw [if_pos hf]
      · rw [if_neg hf]
  · intro hfalse
    cases hp : dget st.pending chat_id with
    | none => simp [tryResolve, hp]
    | some p =>
        cases hn : parsePyInt (pyStrip text) with
        | none => simp [tryResolve, hn, hp]
        | some n =>
            simp only [tryResolve, hp, hn] at hfalse ⊢
            by_cases hb : n < 1 ∨ n > (p.options.length : Int)
            · rw [dif_pos hb]
            · rw [dif_neg hb] at hfalse ⊢
              split at hfalse <;> simp at hfalse
  · intro p n hp hn h1 h2 hfut
    have hb : ¬(n < 1 ∨ n > (p.options.length : Int)) := by omega
    have hlt : (n - 1).toNat < p.options.length := by omega
    refine ⟨p.options.get ⟨(n - 1).toNat, hlt⟩, List.get?_eq_get hlt, ?_⟩
    simp only [tryResolve, hp, hn]
    rw [dif_neg hb, if_pos hfut]
    exact dget_dset_self st.pending chat_id _

/-- C6 witness: the acceptance test and the resolved future at the
concrete two-option request answered with `"2"`. -/
theorem c6_try_resolve_exact_witness :
    (tryResolve
        ⟨[], [("private:111",
          ⟨FutureState.unset,
           [⟨"o1", "Allow once", "allow_once"⟩, ⟨"o2", "Allow always", "allow_always"⟩],
           "ev"⟩)]⟩
        "private:111" "2").1 = true ∧
    (∃ sel, [⟨"o1", "Allow once", "allow_once"⟩,
             (⟨"o2", "Allow always", "allow_always"⟩ : PermissionOption)].get?
        ((2 - 1 : Int)).toNat = some sel ∧
      dget (tryResolve
          ⟨[], [("private:111",
            ⟨FutureState.unset,
             [⟨"o1", "Allow once", "allow_once"⟩, ⟨"o2", "Allow always", "allow_always"⟩],
             "ev"⟩)]⟩
          "private:111" "2").2.pending "private:111"
        = some ⟨FutureState.resolvedTo sel,
            [⟨"o1", "Allow once", "allow_once"⟩, ⟨"o2", "Allow always", "allow_always"⟩],
            "ev"⟩) := by
  have h := c6_try_resolve_exact
    ⟨[], [("private:111",
      ⟨FutureState.unset,
       [⟨"o1", "Allow once", "allow_once"⟩, ⟨"o2", "Allow always", "allow_always"⟩],
       "ev"⟩)]⟩
    "private:111" "2"
  refine ⟨h.1.mpr ⟨_, rfl, 2, by decide, by decide, by decide⟩, ?_⟩
  exact h.2.2.1 _ 2 rfl (by decide) (by decide) (by decide) rfl

/-! ## Claim C5 -/

/-- C5: an always-cache hit makes `handle` return the cached option as
"selected" immediately — no chat message is posted, no pending entry is
registered, the broker state is untouched — and a cache miss resolved by
the user with an `allow_always`/`reject_always` option records that
option in the session's always-cache keyed by the tool kind. -/
theorem c5_always_cache (cfg : BrokerConfig) (st : BrokerState)
    (session_id chat_id event : String) (tool_call : ToolCallUpdate)
    (options : List PermissionOption) :
    (∀ cached, kget ((dget st.always session_id).getD []) tool_call.kind = some cached →
      ∀ res, handle cfg st session_id chat_id event tool_call options res
        = ⟨.selected cached.option_id, [], st⟩) ∧
    (kget ((dget st.always session_id).getD []) tool_call.kind = none →
      ∀ sel : PermissionOption, sel.kind = "allow_always" ∨ sel.kind = "reject_always" →
        kget ((dget (handle cfg st session_id chat_id event tool_call options
            (.userSelects sel)).state.always session_id).getD [])
          tool_call.kind = some sel) := by
  constructor
  · intro cached hcached res
    simp [handle, hcached]
  · intro hmiss sel hsel
    simp only [handle, hmiss]
    rw [if_pos hsel]
    simp only
    rw [dget_dset_self]
    simp only [Option.getD_some]
    exact kget_kset_self _ tool_call.kind sel

/-- C5 witness: a concrete cache hit returns the cached option with no
message and unchanged state, and a concrete miss resolved with
`allow_always` lands in the cache under the tool kind. -/
theorem c5_always_cache_witness :
    handle ⟨300, 500⟩
        ⟨[("sess-1", [(some "execute", ⟨"o2", "Allow always", "allow_always"⟩)])], []⟩
        "sess-1" "private:111" "ev" ⟨some "execute", some "Run", none⟩
        [⟨"o1", "Allow once", "allow_once"⟩] HandleResolution.timedOut
      = ⟨.selected "o2", [],
         ⟨[("sess-1", [(some "execute", ⟨"o2", "Allow always", "allow_always"⟩)])], []⟩⟩ ∧
    kget ((dget (handle ⟨300, 500⟩ ⟨[], []⟩ "sess-1" "private:111" "ev"
          ⟨some "execute", some "Run", none⟩
          [⟨"o1", "Allow once", "allow_once"⟩, ⟨"o2", "Allow always", "allow_always"⟩]
          (.userSelects ⟨"o2", "Allow always", "allow_always"⟩)).state.always
        "sess-1").getD [])
      (some "execute") = some ⟨"o2", "Allow always", "allow_always"⟩ := by
  have h := c5_always_cache ⟨300, 500⟩
    ⟨[("sess-1", [(some "execute", ⟨"o2", "Allow always", "allow_always"⟩)])], []⟩
    "sess-1" "private:111" "ev" ⟨some "execute", some "Run", none⟩
    [⟨"o1", "Allow once", "allow_once"⟩]
  have h2 := c5_always_cache ⟨300, 500⟩ ⟨[], []⟩
    "sess-1" "private:111" "ev" ⟨some "execute", some "Run", none⟩
    [⟨"o1", "Allow once", "allow_once"⟩, ⟨"o2", "Allow always", "allow_always"⟩]
  exact ⟨h.1 ⟨"o2", "Allow always", "allow_always"⟩ rfl HandleResolution.timedOut,
    h2.2 rfl ⟨"o2", "Allow always", "allow_always"⟩ (Or.inl rfl)⟩

/-! ## Claim C10 -/

/-- C10: pending-entry lifecycle.  On a cache miss, `handle` removes the
pending entry for the chat on every way the await can finish (user
resolution, timeout, cancellation, unexpected error), so `has_pending` is
false afterwards; on a cache hit the broker state is untouched entirely;
`try_resolve` never changes the set of pending chats (it only resolves
the future in place); `cancel_pending` on a chat with no pending record
is a no-op; and both `handle` and `cancel_pending` preserve the
one-record-per-chat key discipline of the pending table. -/
theorem c10_pending_lifecycle :
    (∀ (cfg : BrokerConfig) (st : BrokerState) session_id chat_id event tool_call
        options res,
      kget ((dget st.always session_id).getD []) tool_call.kind = none →
      hasPending
        (handle cfg st session_id chat_id event tool_call options res).state
        chat_id = false) ∧
    (∀ (cfg : BrokerConfig) (st : BrokerState) session_id chat_id event tool_call
        options res cached,
      kget ((dget st.always session_id).getD []) tool_call.kind = some cached →
      (handle cfg st session_id chat_id event tool_call options res).state = st) ∧
    (∀ (st : BrokerState) chat_id text,
      ((tryResolve st chat_id text).2.pending).map Prod.fst
        = st.pending.map Prod.fst) ∧
    (∀ (st : BrokerState) chat_id,
      dget st.pending chat_id = none → cancelPending st chat_id = st) ∧
    (∀ (cfg : BrokerConfig) (st : BrokerState) session_id chat_id event tool_call
        options res,
      (st.pending.map Prod.fst).Nodup →
      ((handle cfg st session_id chat_id event tool_call options res).state.pending.map
        Prod.fst).Nodup) ∧
    (∀ (st : BrokerState) chat_id,
      (st.pending.map Prod.fst).Nodup →
      ((cancelPending st chat_id).pending.map Prod.fst).Nodup) := by
  refine ⟨?_, ?_, ?_, ?_, ?_, ?_⟩
  · intro cfg st session_id chat_id event tool_call options res hmiss
    simp only [handle, hmiss]
    cases res with
    | userSelects sel =>
        dsimp only
        split <;> simp [hasPending, dget_dpop_self]
    | timedOut => simp [hasPending, dget_dpop_self]
    | cancelledAwait => simp [hasPending, dget_dpop_self]
    | unexpectedError => simp [hasPending, dget_dpop_self]
  · intro cfg st session_id chat_id event tool_call options res cached hcached
    simp [handle, hcached]
  · intro st chat_id text
    cases hp : dget st.pending chat_id with
    | none => simp [tryResolve, hp]
    | some p =>
        cases hn : parsePyInt (pyStrip text) with
        | none => simp [tryResolve, hp, hn]
        | some n =>
            simp only [tryResolve, hp, hn]
            by_cases hb : n < 1 ∨ n > (p.options.length : Int)
            · rw [dif_pos hb]
            · rw [dif_neg hb]
              by_cases hf : p.future = FutureState.unset
              · rw [if_pos hf]
                exact dset_keys_of_mem st.pending chat_id _ (by simp [hp])
              · rw [if_neg hf]
  · intro st chat_id hnone
    simp [cancelPending, hnone]
  · intro cfg st session_id chat_id event tool_call options res hnodup
    cases hc : kget ((dget st.always session_id).getD []) tool_call.kind with
    | some cached => simp [handle, hc, hnodup]
    | none =>
        simp only [handle, hc]
        have hstep : ((dpop (dset st.pending chat_id
            ⟨FutureState.unset, options, event⟩) chat_id).map Prod.fst).Nodup :=
          dpop_keys_nodup _ chat_id (dset_keys_nodup _ chat_id _ hnodup)
        cases res with
        | userSelects sel =>
            dsimp only
            split <;> exact hstep
        | timedOut => exact hstep
        | cancelledAwait => exact hstep
        | unexpectedError => exact hstep
  · intro st chat_id hnodup
    cases hp : dget st.pending chat_id with
    | none => simp [cancelPending, hp, hnodup]
    | some p =>
        simp only [cancelPending, hp]
        exact dpop_keys_nodup _ chat_id hnodup

/-- C10 witness: the lifecycle facts at a concrete broker state with one
pending entry and an empty cache. -/
theorem c10_pending_lifecycle_witness :
    hasPending
      (handle ⟨300, 500⟩ ⟨[], []⟩ "sess-1" "private:111" "ev"
        ⟨some "execute", some "Run", none⟩ [⟨"o1", "Allow once", "allow_once"⟩]
        HandleResolution.timedOut).state "private:111" = false ∧
    cancelPending ⟨[], []⟩ "private:111" = ⟨[], []⟩ ∧
    ((tryResolve
        ⟨[], [("private:111",
          ⟨FutureState.unset, [⟨"o1", "Allow once", "allow_once"⟩], "ev"⟩)]⟩
        "private:111" "1").2.pending).map Prod.fst
      = [("private:111",
          (⟨FutureState.unset, [⟨"o1", "Allow once", "allow_once"⟩],
            "ev"⟩ : PendingPermission))].map Prod.fst := by
  have h := c10_pending_lifecycle
  refine ⟨h.1 ⟨300, 500⟩ ⟨[], []⟩ "sess-1" "private:111" "ev"
      ⟨some "execute", some "Run", none⟩ [⟨"o1", "Allow once", "allow_once"⟩]
      HandleResolution.timedOut rfl,
    h.2.2.2.1 ⟨[], []⟩ "private:111" rfl,
    h.2.2.1
      ⟨[], [("private:111",
        ⟨FutureState.unset, [⟨"o1", "Allow once", "allow_once"⟩], "ev"⟩)]⟩
      "private:111" "1"⟩

/-! ## Accumulation lemmas -/

theorem accumulatePartOn_dget (c : AgentConnection) (sid : String) (part : ContentPart)
    {l : List ContentPart} (h : dget c.accumulators sid = some l) :
    dget (accumulatePartOn c sid part).accumulators sid = some (l ++ [part]) := by
  simp [accumulatePartOn, h, dget_dset_self]

theorem run_updates (sid : String) (us : List SessionUpdate) :
    ∀ (c : AgentConnection) (l : List ContentPart),
      dget c.accumulators sid = some l →
      dget ((us.foldl (fun c u => sessionUpdateOn c sid u) c).accumulators) sid
        = some (l ++ us.filterMap updatePart) := by
  induction us with
  | nil => intro c l h; simpa using h
  | cons u rest ih =>
      intro c l h
      cases u with
      | messageText s =>
          have hstep := accumulatePartOn_dget c sid { type := "text", text := s } h
          have := ih (sessionUpdateOn c sid (.messageText s)) _ hstep
          simpa [sessionUpdateOn, updatePart, List.filterMap_cons] using this
      | messageImage d m =>
          have hstep := accumulatePartOn_dget c sid
            { type := "image", image_base64 := d, image_mime := m } h
          have := ih (sessionUpdateOn c sid (.messageImage d m)) _ hstep
          simpa [sessionUpdateOn, updatePart, List.filterMap_cons] using this
      | toolCall =>
          have := ih c l h
          simpa [sessionUpdateOn, updatePart, List.filterMap_cons] using this
      | plan =>
          have := ih c l h
          simpa [sessionUpdateOn, updatePart, List.filterMap_cons] using this

theorem filterMap_updatePart_length {cs : List SessionUpdate}
    (hmsg : ∀ u ∈ cs, updatePart u ≠ none) :
    (cs.filterMap updatePart).length = cs.length := by
  induction cs with
  | nil => rfl
  | cons u rest ih =>
      have hu : updatePart u ≠ none := hmsg u (List.mem_cons_self u rest)
      cases hp : updatePart u with
      | none => exact absurd hp hu
      | some p =>
          have := ih fun v hv => hmsg v (List.mem_cons_of_mem u hv)
          simp [List.filterMap_cons, hp, this]

theorem filterMap_updatePart_image_at {cs : List SessionUpdate}
    (hmsg : ∀ u ∈ cs, updatePart u ≠ none) :
    ∀ i d m, cs.get? i = some (.messageImage d m) →
      (cs.filterMap updatePart).get? i
        = some ⟨"image", "", d, m⟩ := by
  induction cs with
  | nil => intro i d m h; simp at h
  | cons u rest ih =>
      intro i d m h
      have hu : updatePart u ≠ none := hmsg u (List.mem_cons_self u rest)
      cases hp : updatePart u with
      | none => exact absurd hp hu
      | some p =>
          cases i with
          | zero =>
              simp only [List.get?] at h
              obtain rfl : u = SessionUpdate.messageImage d m := Option.some.inj h
              simp [List.filterMap_cons, updatePart]
          | succ i =>
              simp only [List.get?] at h
              have := ih (fun v hv => hmsg v (List.mem_cons_of_mem u hv)) i d m h
              simp only [List.get?_eq_getElem?] at this
              simp [List.filterMap_cons, hp, this]

/-! ## Claim C3 -/

/-- C3: error handling of `send_prompt`.  For every connection, fresh
session id, delivered update sequence and outcome, the session's
accumulator entry has been removed afterwards (drained on success,
dropped on cancellation or error — exactly once) and `active_prompt` is
reset to `false`; cancellation is re-raised without wrapping; and a
failing prompt raises `AgentErrorWithPartialContent` carrying exactly the
parts accumulated for the session up to the failure. -/
theorem c3_send_prompt_error_handling :
    (∀ (conn : AgentConnection) (fresh_sid : String)
        (updates : List (String × SessionUpdate)) (outcome : PromptOutcome),
      dget (sendPrompt conn fresh_sid updates outcome).2.accumulators
          (getOrCreateSession conn fresh_sid).session_id = none ∧
      (sendPrompt conn fresh_sid updates outcome).2.active_prompt = false) ∧
    (∀ (conn : AgentConnection) (fresh_sid : String)
        (updates : List (String × SessionUpdate)),
      (sendPrompt conn fresh_sid updates PromptOutcome.cancelled).1
        = PromptResult.cancelledRaised) ∧
    (∀ (conn : AgentConnection) (fresh_sid : String) (cs : List SessionUpdate),
      (sendPrompt conn fresh_sid
          (cs.map fun u => ((getOrCreateSession conn fresh_sid).session_id, u))
          PromptOutcome.error).1
        = PromptResult.errorWithStreamed (cs.filterMap updatePart)) := by
  refine ⟨?_, ?_, ?_⟩
  · intro conn fresh_sid updates outcome
    cases outcome <;> exact ⟨dget_dpop_self _ _, rfl⟩
  · intro conn fresh_sid updates
    rfl
  · intro conn fresh_sid cs
    show (PromptResult.errorWithStreamed _, _).1 = _
    simp only
    rw [List.foldl_map]
    have hinit : dget (dset (getOrCreateSession conn fresh_sid).conn.accumulators
        (getOrCreateSession conn fresh_sid).session_id [])
        (getOrCreateSession conn fresh_sid).session_id = some [] :=
      dget_dset_self _ _ _
    rw [run_updates _ cs _ [] hinit]
    simp

/-! ## Claim C2 -/

/-- C2: accumulator round trip.  For message chunks `c1..cn` delivered
for the prompt's session while the prompt is awaited, a successful
`send_prompt` returns exactly their parts in arrival order: the returned
list is the chunk list part-for-part, the concatenation of its text
parts equals the concatenation of the text chunks, and every image chunk
appears as an image part at its arrival index. -/
theorem c2_accumulator_round_trip (conn : AgentConnection) (fresh_sid : String)
    (cs : List SessionUpdate) (hmsg : ∀ u ∈ cs, updatePart u ≠ none) :
    (sendPrompt conn fresh_sid
        (cs.map fun u => ((getOrCreateSession conn fresh_sid).session_id, u))
        PromptOutcome.success).1
      = PromptResult.ok (cs.filterMap updatePart) ∧
    textConcat (cs.filterMap updatePart) = chunkTextConcat cs ∧
    (∀ i d m, cs.get? i = some (.messageImage d m) →
      (cs.filterMap updatePart).get? i = some ⟨"image", "", d, m⟩) ∧
    (cs.filterMap updatePart).length = cs.length := by
  refine ⟨?_, ?_, filterMap_updatePart_image_at hmsg, filterMap_updatePart_length hmsg⟩
  · show (PromptResult.ok _, _).1 = _
    simp only
    rw [List.foldl_map]
    have hinit : dget (dset (getOrCreateSession conn fresh_sid).conn.accumulators
        (getOrCreateSession conn fresh_sid).session_id [])
        (getOrCreateSession conn fresh_sid).session_id = some [] :=
      dget_dset_self _ _ _
    rw [run_updates _ cs _ [] hinit]
    simp
  · induction cs with
    | nil => rfl
    | cons u rest ih =>
        have := ih fun v hv => hmsg v (List.mem_cons_of_mem u hv)
        cases u <;>
          simpa [textConcat, chunkTextConcat, updatePart, List.filterMap_cons] using this

/-- C2 witness: a concrete delivery of text, image, text chunks. -/
theorem c2_accumulator_round_trip_witness :
    (sendPrompt ⟨[], false⟩ "sess-1"
        ([SessionUpdate.messageText "Hello ",
          SessionUpdate.messageImage "IMG" "image/png",
          SessionUpdate.messageText "world"].map
          fun u => ((getOrCreateSession (⟨[], false⟩ : AgentConnection)
            "sess-1").session_id, u))
        PromptOutcome.success).1
      = PromptResult.ok
          [⟨"text", "Hello ", "", ""⟩, ⟨"image", "", "IMG", "image/png"⟩,
           ⟨"text", "world", "", ""⟩] ∧
    ([SessionUpdate.messageText "Hello ",
      SessionUpdate.messageImage "IMG" "image/png",
      SessionUpdate.messageText "world"].filterMap updatePart).get? 1
      = some ⟨"image", "", "IMG", "image/png"⟩ := by
  have h := c2_accumulator_round_trip ⟨[], false⟩ "sess-1"
    [SessionUpdate.messageText "Hello ",
     SessionUpdate.messageImage "IMG" "image/png",
     SessionUpdate.messageText "world"]
    (by intro u hu; fin_cases hu <;> simp [updatePart])
  exact ⟨h.1.trans (by rfl), h.2.2.1 1 "IMG" "image/png" rfl⟩

/-! ## Placeholder-replacement lemmas -/

theorem isPrefixOf_append_left (m a b : List Char) (h : m.length ≤ a.length) :
    m.isPrefixOf (a ++ b) = m.isPrefixOf a := by
  induction m generalizing a with
  | nil => simp [List.isPrefixOf]
  | cons x m' ih =>
      cases a with
      | nil => simp at h
      | cons y a' =>
          simp only [List.cons_append, List.isPrefixOf, List.append_eq]
          rw [ih a' (by simpa using h)]

theorem isPrefixOf_self_append (m b : List Char) : m.isPrefixOf (m ++ b) = true := by
  induction m with
  | nil => simp [List.isPrefixOf]
  | cons x m' ih => simp [List.isPrefixOf, ih]

theorem findMarker_at (marker : List Char) (hm : marker ≠ []) :
    ∀ (seg rest : List Char), noEarlyOcc marker seg →
      findMarker marker (seg ++ (marker ++ rest)) = some seg.length := by
  intro seg
  induction seg with
  | nil =>
      intro rest _
      cases hmk : marker with
      | nil => exact absurd hmk hm
      | cons a as =>
          subst hmk
          have hpre := isPrefixOf_self_append (a :: as) rest
          simp only [List.cons_append] at hpre
          simp [findMarker, hpre]
  | cons c s ih =>
      intro rest hseg
      have h0 : marker.isPrefixOf ((c :: s) ++ marker) = false := by
        have := hseg 0 (by simp)
        simpa using this
      have h0' : marker.isPrefixOf (c :: (s ++ (marker ++ rest))) = false := by
        have hle : marker.length ≤ ((c :: s) ++ marker).length := by
          simp only [List.length_append, List.length_cons]
          omega
        have := isPrefixOf_append_left marker ((c :: s) ++ marker) rest hle
        rw [h0] at this
        simpa using this
      have hrec : noEarlyOcc marker s := by
        intro i hi
        have := hseg (i + 1) (by simpa using Nat.succ_lt_succ hi)
        simpa using this
      have hif : findMarker marker (c :: (s ++ (marker ++ rest)))
          = if marker.isPrefixOf (c :: (s ++ (marker ++ rest))) then some 0
            else (findMarker marker (s ++ (marker ++ rest))).map (· + 1) := rfl
      rw [List.cons_append, hif, if_neg (by simp [h0'])]
      rw [ih rest hrec]
      simp

theorem replaceLoop_eq_tailFn (marker : List Char) :
    ∀ (reps : List (List Char)) (text : List Char) (start : Nat),
      replaceLoop marker text start reps = tailFn marker (text.drop start) reps := by
  intro reps
  induction reps with
  | nil => intro text start; rfl
  | cons r rs ih =>
      intro text start
      simp only [replaceLoop, tailFn, pyFind]
      cases hf : findMarker marker (text.drop start) with
      | none => simp
      | some j =>
          simp only [Option.map_some']
          have h1 : j + start - start = j := by omega
          have h2 : replaceLoop marker text (j + start + marker.length) rs
              = tailFn marker (text.drop (j + start + marker.length)) rs := ih text _
          have h3 : text.drop (j + start + marker.length)
              = (text.drop start).drop (j + marker.length) := by
            rw [List.drop_drop]
            congr 1
            omega
          rw [h1, h2, h3]

theorem tailFn_interleave (marker : List Char) (hm : marker ≠ []) :
    ∀ (reps segs : List (List Char)), segs.length = reps.length + 1 →
      (∀ seg ∈ segs.dropLast, noEarlyOcc marker seg) →
      tailFn marker (interleave segs (List.replicate reps.length marker)) reps
        = (interleave segs reps, []) := by
  intro reps
  induction reps with
  | nil =>
      intro segs hlen _
      cases segs with
      | nil => simp at hlen
      | cons s ss =>
          cases ss with
          | nil => rfl
          | cons s2 ss2 => simp at hlen
  | cons r rs ih =>
      intro segs hlen hseg
      cases segs with
      | nil => simp at hlen
      | cons s ss =>
          have hss : ss.length = rs.length + 1 := by simpa using hlen
          have hssne : ss ≠ [] := by
            intro h
            rw [h] at hss
            simp at hss
          have hs0 : noEarlyOcc marker s := by
            apply hseg
            cases ss with
            | nil => exact absurd rfl hssne
            | cons s2 ss2 => simp [List.dropLast]
          have hT : interleave (s :: ss) (List.replicate (r :: rs).length marker)
              = s ++ (marker ++ interleave ss (List.replicate rs.length marker)) := by
            simp only [List.length_cons, List.replicate_succ, interleave, List.append_assoc]
          rw [hT]
          have hfind := findMarker_at marker hm s
            (interleave ss (List.replicate rs.length marker)) hs0
          simp only [tailFn, hfind]
          have htake : (s ++ (marker ++ interleave ss (List.replicate rs.length marker))).take
              s.length = s := by
            rw [List.take_left]
          have hdrop : (s ++ (marker ++ interleave ss (List.replicate rs.length marker))).drop
              (s.length + marker.length) = interleave ss (List.replicate rs.length marker) := by
            rw [← List.append_assoc]
            have : s.length + marker.length = (s ++ marker).length := by simp
            rw [this, List.drop_left]
          rw [htake, hdrop, ih ss hss (fun seg hmem => hseg seg (by
            cases ss with
            | nil => exact absurd rfl hssne
            | cons s2 ss2 => simpa [List.dropLast] using Or.inr hmem))]
          simp [interleave]

theorem replaceImagePlaceholders_interleave (segs reps : List (List Char))
    (hlen : segs.length = reps.length + 1)
    (hseg : ∀ seg ∈ segs.dropLast, noEarlyOcc imageMarker seg) :
    replaceImagePlaceholders (interleave segs (List.replicate reps.length imageMarker))
        reps
      = interleave segs reps := by
  have hm : imageMarker ≠ [] := by decide
  cases reps with
  | nil =>
      cases segs with
      | nil => simp at hlen
      | cons s ss =>
          cases ss with
          | nil => rfl
          | cons s2 ss2 => simp at hlen
  | cons r rs =>
      unfold replaceImagePlaceholders
      rw [if_neg (by simp)]
      rw [replaceLoop_eq_tailFn]
      simp only [List.drop_zero]
      have key := tailFn_interleave imageMarker hm (r :: rs) segs hlen hseg
      simp only [List.length_cons] at key
      simp [key]

theorem buildReplacements_eq (supports : Bool) :
    ∀ (atts : List ImageAttachment) (dls : List (Option (String × String))),
      atts.length = dls.length →
      buildReplacements supports atts dls
        = (atts.zip dls).map fun ad => claimReplacement supports ad.1 ad.2 := by
  intro atts
  induction atts with
  | nil => intro dls _; rfl
  | cons att atts ih =>
      intro dls h
      cases dls with
      | nil => simp at h
      | cons d ds =>
          have htail := ih ds (by simpa using h)
          simp [buildReplacements, claimReplacement, htail]

/-! ## Claim C7 -/

/-- C7: prompt blocks.  For a parsed text that decomposes into
marker-free segments around its positional placeholders (one per image,
matching the download list in length), `build_prompt_blocks` emits as its
first block the text block `header ++ "\n" ++ body` in which the k-th
placeholder is rewritten by the claim's rule — kept as the plain marker
exactly when the agent supports images and that image downloaded,
otherwise replaced by the URL form or by the bare marker when the
stripped URL is empty — and the text block is followed by one image block
per successful download, in order, exactly when the agent supports
images; failed downloads contribute no image block. -/
theorem c7_build_prompt_blocks (parsed : ParsedMessage)
    (downloaded_images : List (Option (String × String)))
    (agent_supports_image : Bool) (segs : List (List Char))
    (hdl : downloaded_images.length = parsed.images.length)
    (hsegs : segs.length = parsed.images.length + 1)
    (hdecomp : parsed.text.data
      = interleave segs (List.replicate parsed.images.length imageMarker))
    (hclean : ∀ seg ∈ segs.dropLast, noEarlyOcc imageMarker seg) :
    buildPromptBlocks parsed downloaded_images agent_supports_image
      = PromptBlock.textB (buildHeader parsed ++ ['\n'] ++
          interleave segs ((parsed.images.zip downloaded_images).map
            fun ad => claimReplacement agent_supports_image ad.1 ad.2))
        :: (if agent_supports_image then
              (downloaded_images.filterMap id).map fun dm => PromptBlock.imageB dm.1 dm.2
            else []) := by
  have hrepl := buildReplacements_eq agent_supports_image parsed.images
    downloaded_images hdl.symm
  have hzlen : ((parsed.images.zip downloaded_images).map
      fun ad => claimReplacement agent_supports_image ad.1 ad.2).length
      = parsed.images.length := by
    simp [List.length_zip, hdl]
  unfold buildPromptBlocks
  dsimp only
  rw [hrepl, hdecomp]
  rw [show List.replicate parsed.images.length imageMarker
      = List.replicate ((parsed.images.zip downloaded_images).map
          fun ad => claimReplacement agent_supports_image ad.1 ad.2).length imageMarker
    from by rw [hzlen]]
  rw [replaceImagePlaceholders_interleave segs _ (by rw [hzlen]; exact hsegs) hclean]
  cases agent_supports_image <;> simp

/-- C7 witness: the spec's image-attachment scenario, in both the
successful-download and failed-download variants. -/
theorem c7_build_prompt_blocks_witness :
    buildPromptBlocks
        ⟨"private:111", "see[图片]", false, "Alice", 111, none, "private",
         [⟨"http://ex/a.png"⟩]⟩
        [some ("aGVsbG8=", "image/png")] true
      = [PromptBlock.textB ("[Private chat, user Alice(111)]\nsee[图片]").data,
         PromptBlock.imageB "aGVsbG8=" "image/png"] ∧
    buildPromptBlocks
        ⟨"private:111", "see[图片]", false, "Alice", 111, none, "private",
         [⟨"http://ex/a.png"⟩]⟩
        [none] true
      = [PromptBlock.textB
          ("[Private chat, user Alice(111)]\nsee[图片 url=http://ex/a.png]").data] := by
  constructor
  · have h := c7_build_prompt_blocks
      ⟨"private:111", "see[图片]", false, "Alice", 111, none, "private",
       [⟨"http://ex/a.png"⟩]⟩
      [some ("aGVsbG8=", "image/png")] true ["see".data, []]
      (by decide) (by decide) (by decide) (by decide)
    exact h.trans (by decide)
  · have h := c7_build_prompt_blocks
      ⟨"private:111", "see[图片]", false, "Alice", 111, none, "private",
       [⟨"http://ex/a.png"⟩]⟩
      [none] true ["see".data, []]
      (by decide) (by decide) (by decide) (by decide)
    exact h.trans (by decide)

end Ncat
